import Mathlib

/-!
Shallow embedding of `orbital-core/src/image.rs` (the pixel-buffer / ROI /
compositing core of the orbital window server) together with proofs of the
specified properties.

A pixel (`orbclient::Color`) is its packed 32-bit ARGB word, modelled as a
`Nat`; all the arithmetic performed by the code on a pixel stays far below
`2 ^ 32`, so `Nat` arithmetic coincides with the `u32` arithmetic of the
source.  A pixel array is a `List Color`; in-place mutation through the
mutable row iterator is modelled by explicit state passing (`writeRow`).
-/

namespace Orbital

/-- A pixel: the packed 32-bit ARGB word (the `data` field of `orbclient::Color`,
alpha in bits 24-31, red 16-23, green 8-15, blue 0-7). -/
abbrev Color := Nat

/-- Alpha channel of a pixel, as extracted by the code: `(c >> 24) & 0xFF`. -/
def alphaOf (c : Color) : Nat := (c >>> 24) &&& 0xFF

/-- Red channel of a pixel: `(c >> 16) & 0xFF`. -/
def redOf (c : Color) : Nat := (c >>> 16) &&& 0xFF

/-- Green channel of a pixel: `(c >> 8) & 0xFF`. -/
def greenOf (c : Color) : Nat := (c >>> 8) &&& 0xFF

/-- Blue channel of a pixel: `c & 0xFF`. -/
def blueOf (c : Color) : Nat := c &&& 0xFF

/-- `orbclient::Color::rgb`: full alpha plus the three channels. -/
def Color.rgb (r g b : Nat) : Color :=
  0xFF000000 ||| ((r &&& 0xFF) <<< 16) ||| ((g &&& 0xFF) <<< 8) ||| (b &&& 0xFF)

/-- The external `Rect` geometry (`rect.rs` is outside this module; the code
consumes it through the accessors `left()`, `top()`, `width()`, `height()`).
The claims under verification concern in-bounds, non-negative rectangles, so
the fields are modelled as `Nat`. -/
structure Rect where
  left : Nat
  top : Nat
  width : Nat
  height : Nat
deriving Repr, DecidableEq

/-- Iterator state of `ImageRoiRows`: the rect, the stride `w`, the borrowed
backing array, and the current row index `i`. -/
structure ImageRoiRows where
  rect : Rect
  w : Nat
  data : List Color
  i : Nat
deriving Repr, DecidableEq

/-- `<ImageRoiRows as Iterator>::next`: while `i < rect.height()`, yield the
slice `data[start .. start + width]` with
`start = (rect.top() + i) * w + rect.left()` and advance `i`. -/
def ImageRoiRows.next (it : ImageRoiRows) : Option (List Color) × ImageRoiRows :=
  if it.i < it.rect.height then
    (some ((it.data.drop ((it.rect.top + it.i) * it.w + it.rect.left)).take it.rect.width),
     { it with i := it.i + 1 })
  else
    (none, it)

/-- Repeated `next` collecting the yielded rows; the fuel is exactly the
number of yields that remain (`rect.height - i`, proved in
`ImageRoiRows.collect_unfold`). -/
def ImageRoiRows.collectFuel : Nat → ImageRoiRows → List (List Color)
  | 0, _ => []
  | fuel + 1, it =>
    match it.next with
    | (some row, it2) => row :: ImageRoiRows.collectFuel fuel it2
    | (none, _) => []

/-- All rows yielded by the `ImageRoiRows` iterator, in order. -/
def ImageRoiRows.collect (it : ImageRoiRows) : List (List Color) :=
  ImageRoiRows.collectFuel (it.rect.height - it.i) it

/-- Iterator state of `ImageRoiRowsMut` (identical shape to `ImageRoiRows`;
the mutability of the yielded slices is a borrow-checker matter with no
counterpart in the purely functional model). -/
structure ImageRoiRowsMut where
  rect : Rect
  w : Nat
  data : List Color
  i : Nat
deriving Repr, DecidableEq

/-- `<ImageRoiRowsMut as Iterator>::next`: same indexing as the shared
iterator. -/
def ImageRoiRowsMut.next (it : ImageRoiRowsMut) : Option (List Color) × ImageRoiRowsMut :=
  if it.i < it.rect.height then
    (some ((it.data.drop ((it.rect.top + it.i) * it.w + it.rect.left)).take it.rect.width),
     { it with i := it.i + 1 })
  else
    (none, it)

/-- Repeated `next` for the mutable-row iterator. -/
def ImageRoiRowsMut.collectFuel : Nat → ImageRoiRowsMut → List (List Color)
  | 0, _ => []
  | fuel + 1, it =>
    match it.next with
    | (some row, it2) => row :: ImageRoiRowsMut.collectFuel fuel it2
    | (none, _) => []

/-- All rows yielded by the `ImageRoiRowsMut` iterator, in order. -/
def ImageRoiRowsMut.collect (it : ImageRoiRowsMut) : List (List Color) :=
  ImageRoiRowsMut.collectFuel (it.rect.height - it.i) it

/-- `ImageRoi`: a rect, the stride of the underlying buffer, and (a borrow of)
the buffer's full pixel array. -/
structure ImageRoi where
  rect : Rect
  w : Nat
  data : List Color
deriving Repr, DecidableEq

/-- `ImageRoi::rows`: a fresh shared row iterator starting at `i = 0`. -/
def ImageRoi.rows (roi : ImageRoi) : ImageRoiRows :=
  { rect := roi.rect, w := roi.w, data := roi.data, i := 0 }

/-- `ImageRoi::rows_mut`: a fresh mutable row iterator starting at `i = 0`. -/
def ImageRoi.rows_mut (roi : ImageRoi) : ImageRoiRowsMut :=
  { rect := roi.rect, w := roi.w, data := roi.data, i := 0 }

/-- The per-pixel body of `ImageRoi::blend`: `u32` arithmetic (every
intermediate is `< 2 ^ 25`, so plain `Nat` arithmetic agrees). -/
def blendPixel (old new : Color) : Color :=
  let alpha := (new >>> 24) &&& 0xFF
  if 255 ≤ alpha then
    new
  else if 0 < alpha then
    let n_r := (((new >>> 16) &&& 0xFF) * alpha) >>> 8
    let n_g := (((new >>> 8) &&& 0xFF) * alpha) >>> 8
    let n_b := ((new &&& 0xFF) * alpha) >>> 8
    let n_alpha := 255 - alpha
    let o_r := (((old >>> 16) &&& 0xFF) * n_alpha) >>> 8
    let o_g := (((old >>> 8) &&& 0xFF) * n_alpha) >>> 8
    let o_b := ((old &&& 0xFF) * n_alpha) >>> 8
    ((o_r <<< 16) ||| (o_g <<< 8) ||| o_b) + ((n_r <<< 16) ||| (n_g <<< 8) ||| n_b)
  else
    old

/-- One destination row after the inner loop of `ImageRoi::blend`:
`self_row.iter_mut().zip(other_row.iter())` runs over the common prefix and
leaves the remaining destination pixels untouched. -/
def blendRow (self_row other_row : List Color) : List Color :=
  List.zipWith blendPixel self_row other_row ++ self_row.drop other_row.length

/-- One destination row after `ImageRoi::blit`:
`ptr::copy(other_row.as_ptr(), self_row.as_mut_ptr(), min(len, len))`. -/
def blitRow (self_row other_row : List Color) : List Color :=
  other_row.take (min self_row.length other_row.length) ++
    self_row.drop (min self_row.length other_row.length)

/-- Linear offset of row `i` of `rect` over stride `w`:
`(rect.top() + i) * w + rect.left()`. -/
def rowStart (rect : Rect) (w i : Nat) : Nat :=
  (rect.top + i) * w + rect.left

/-- The row slice `data[start .. start + rect.width]` read at row `i`. -/
def rowSlice (rect : Rect) (w : Nat) (data : List Color) (i : Nat) : List Color :=
  (data.drop (rowStart rect w i)).take rect.width

/-- Writing a (mutated) row slice back into the backing array at offset
`start`: the state-passing image of in-place mutation through a row slice. -/
def writeRow (data : List Color) (start : Nat) (row : List Color) : List Color :=
  data.take start ++ row ++ data.drop (start + row.length)

/-- State-passing translation of the `self.rows_mut().zip(other.rows())`
loops of `blend`/`blit`: step `i` reads destination row `i` from the current
array state, reads source row `i` from the (unmodified) source array,
combines them with `rowFn`, and writes the result back in place.  `n` is the
number of zipped iterations. -/
def roiOpAux (rowFn : List Color → List Color → List Color)
    (dst src : ImageRoi) (n : Nat) : List Color :=
  (List.range n).foldl
    (fun data i =>
      writeRow data (rowStart dst.rect dst.w i)
        (rowFn ((data.drop (rowStart dst.rect dst.w i)).take dst.rect.width)
          (rowSlice src.rect src.w src.data i)))
    dst.data

/-- `ImageRoi::blend`: the zipped row iteration runs
`min(dst.rect.height, src.rect.height)` times.  Returns the destination
buffer's new pixel array (the source array is read only). -/
def ImageRoi.blend (dst src : ImageRoi) : List Color :=
  roiOpAux blendRow dst src (min dst.rect.height src.rect.height)

/-- `ImageRoi::blit`: raw row copy over the zipped rows. -/
def ImageRoi.blit (dst src : ImageRoi) : List Color :=
  roiOpAux blitRow dst src (min dst.rect.height src.rect.height)

/-- The caller obligation on an ROI (spec section 3): the rect fits inside the
buffer addressed through stride `w`.  `(top + height) * w ≤ data.length`
is what `data.length = w * h` and `top + height ≤ h` give. -/
def ImageRoi.inBounds (roi : ImageRoi) : Prop :=
  roi.rect.left + roi.rect.width ≤ roi.w ∧
    (roi.rect.top + roi.rect.height) * roi.w ≤ roi.data.length

instance (roi : ImageRoi) : Decidable roi.inBounds := by
  unfold ImageRoi.inBounds; infer_instance

/-- `orbclient::Mode` (Blend | Overwrite); stored, never consulted by this
module's own operations. -/
inductive Mode where
  | blend
  | overwrite
deriving Repr, DecidableEq

/-- The `Image` struct (heap-owned variant). -/
structure Image where
  w : Nat
  h : Nat
  data : List Color
  mode : Mode
deriving Repr, DecidableEq

/-- `Image::from_data`: wraps the given array verbatim, mode `Blend`. -/
def Image.from_data (width height : Nat) (data : List Color) : Image :=
  { w := width, h := height, data := data, mode := Mode.blend }

/-- `Image::from_color`: `vec![color; width * height]`. -/
def Image.from_color (width height : Nat) (color : Color) : Image :=
  Image.from_data width height (List.replicate (width * height) color)

/-- `Image::new`: filled with `Color::rgb(0, 0, 0)`. -/
def Image.new (width height : Nat) : Image :=
  Image.from_color width height (Color.rgb 0 0 0)

/-- `Image::from_path`, with the external decoder's outcome as input (the
decoder `orbimage::Image::from_path` is an external collaborator returning
either a width/height/pixel triple or an error).  The second component is
the diagnostic log: on failure the code prints
`"orbital Image::from_path: {err}"` and yields no buffer. -/
def Image.from_path (decoded : Except String (Nat × Nat × List Color)) :
    Option Image × List String :=
  match decoded with
  | Except.ok (width, height, data) => (some (Image.from_data width height data), [])
  | Except.error err => (none, ["orbital Image::from_path: " ++ err])

/-- `Image::width`. -/
def Image.width (image : Image) : Nat := image.w

/-- `Image::height`. -/
def Image.height (image : Image) : Nat := image.h

/-- `Image::roi`. -/
def Image.roi (image : Image) (rect : Rect) : ImageRoi :=
  { rect := rect, w := image.w, data := image.data }

/-- The `ImageRef` struct (externally-referenced variant). -/
structure ImageRef where
  w : Nat
  h : Nat
  data : List Color
  mode : Mode
deriving Repr, DecidableEq

/-- `ImageRef::from_data`: borrows the given array verbatim, mode `Blend`. -/
def ImageRef.from_data (width height : Nat) (data : List Color) : ImageRef :=
  { w := width, h := height, data := data, mode := Mode.blend }

/-- `ImageRef::width`. -/
def ImageRef.width (image : ImageRef) : Nat := image.w

/-- `ImageRef::height`. -/
def ImageRef.height (image : ImageRef) : Nat := image.h

/-- The `ImageAligned` struct (alignment-constrained heap-owned variant). -/
structure ImageAligned where
  w : Nat
  h : Nat
  data : List Color
  mode : Mode
deriving Repr, DecidableEq

/-- `ImageAligned::new`: `size_of::<Color>() = 4`; the byte size
`width * height * 4` is rounded up to a multiple of `align`, the raw block is
`memalign`ed and `memset` to zero, and exposed as
`size_aligned / 4` pixels. -/
def ImageAligned.new (width height align : Nat) : ImageAligned :=
  let size := width * height
  let size_bytes := size * 4
  let size_alignments := (size_bytes + align - 1) / align
  let size_aligned := size_alignments * align
  { w := width, h := height,
    data := List.replicate (size_aligned / 4) 0,
    mode := Mode.blend }

/-- `ImageAligned::width`. -/
def ImageAligned.width (image : ImageAligned) : Nat := image.w

/-- `ImageAligned::height`. -/
def ImageAligned.height (image : ImageAligned) : Nat := image.h

/-! ### Arithmetic facts about the packed-pixel operations -/

theorem and_255_eq_mod (x : Nat) : x &&& 255 = x % 256 := by
  have h := Nat.and_pow_two_sub_one_eq_mod x 8
  norm_num at h
  exact h

theorem and_255_le (x : Nat) : x &&& 255 ≤ 255 := by
  rw [and_255_eq_mod]
  omega

theorem shiftRight_8_eq (x : Nat) : x >>> 8 = x / 256 := by
  have h := Nat.shiftRight_eq_div_pow x 8
  norm_num at h
  exact h

theorem shiftRight_16_eq (x : Nat) : x >>> 16 = x / 65536 := by
  have h := Nat.shiftRight_eq_div_pow x 16
  norm_num at h
  exact h

theorem shiftRight_24_eq (x : Nat) : x >>> 24 = x / 16777216 := by
  have h := Nat.shiftRight_eq_div_pow x 24
  norm_num at h
  exact h

theorem lor_shift_add (a b k : Nat) (hb : b < 2 ^ k) : (a <<< k) ||| b = a * 2 ^ k + b := by
  rw [Nat.shiftLeft_eq, Nat.mul_comm a (2 ^ k)]
  exact (Nat.mul_add_lt_is_or hb a).symm

/-- `(r << 16) | (g << 8) | b` is plain positional arithmetic once the two
lower channels fit in their bytes. -/
theorem pack_channels (r g b : Nat) (hg : g < 256) (hb : b < 256) :
    ((r <<< 16) ||| (g <<< 8) ||| b) = r * 65536 + g * 256 + b := by
  rw [Nat.or_assoc]
  have h1 : (g <<< 8) ||| b = g * 256 + b := by
    have h := lor_shift_add g b 8 (by omega)
    norm_num at h
    exact h
  rw [h1]
  have h2 : (r <<< 16) ||| (g * 256 + b) = r * 65536 + (g * 256 + b) := by
    have h := lor_shift_add r (g * 256 + b) 16 (by norm_num; omega)
    norm_num at h
    exact h
  rw [h2]
  ring

/-- Each pre-scaled channel `(c * f) >> 8` with `c, f ≤ 255` is at most 254. -/
theorem scaled_le (c f : Nat) (hc : c ≤ 255) (hf : f ≤ 255) : (c * f) >>> 8 ≤ 254 := by
  rw [shiftRight_8_eq]
  have h : c * f ≤ 255 * 255 := Nat.mul_le_mul hc hf
  omega

/-- The blended channel sum `(cn * a) >> 8 + (co * (255 - a)) >> 8` with
`co, cn ≤ 255` never exceeds 254 (so it stays inside its byte). -/
theorem scaled_sum_le (co cn a : Nat) (hco : co ≤ 255) (hcn : cn ≤ 255) (ha : a ≤ 255) :
    ((cn * a) >>> 8) + ((co * (255 - a)) >>> 8) ≤ 254 := by
  rw [shiftRight_8_eq, shiftRight_8_eq]
  have h1 : cn * a ≤ 255 * a := Nat.mul_le_mul_right a hcn
  have h2 : co * (255 - a) ≤ 255 * (255 - a) := Nat.mul_le_mul_right (255 - a) hco
  have h3 : 255 * a + 255 * (255 - a) = 65025 := by omega
  omega

theorem alphaOf_le (c : Color) : alphaOf c ≤ 255 := and_255_le _

/-- `blend`, fully opaque source pixel: verbatim replacement. -/
theorem blendPixel_replace (old new : Color) (h : 255 ≤ alphaOf new) :
    blendPixel old new = new := by
  unfold alphaOf at h
  simp only [blendPixel]
  rw [if_pos h]

/-- `blend`, transparent source pixel: destination pixel untouched. -/
theorem blendPixel_transparent (old new : Color) (h : alphaOf new = 0) :
    blendPixel old new = old := by
  unfold alphaOf at h
  have hc1 : ¬(255 ≤ (new >>> 24) &&& 0xFF) := by omega
  have hc2 : ¬(0 < (new >>> 24) &&& 0xFF) := by omega
  simp only [blendPixel]
  rw [if_neg hc1, if_neg hc2]

/-- `blend`, partial alpha: the packed word is positional arithmetic on the
three blended channel sums. -/
theorem blendPixel_mid (old new : Color) (h0 : 0 < alphaOf new) (h1 : alphaOf new < 255) :
    blendPixel old new =
      (((redOf old * (255 - alphaOf new)) >>> 8) + ((redOf new * alphaOf new) >>> 8)) * 65536
      + (((greenOf old * (255 - alphaOf new)) >>> 8) + ((greenOf new * alphaOf new) >>> 8)) * 256
      + (((blueOf old * (255 - alphaOf new)) >>> 8) + ((blueOf new * alphaOf new) >>> 8)) := by
  unfold alphaOf at h0 h1
  have hc1 : ¬(255 ≤ (new >>> 24) &&& 0xFF) := by omega
  unfold alphaOf redOf greenOf blueOf
  simp only [blendPixel]
  rw [if_neg hc1, if_pos h0]
  rw [pack_channels _ _ _
        (Nat.lt_of_le_of_lt (scaled_le _ _ (and_255_le _) (by omega)) (by omega))
        (Nat.lt_of_le_of_lt (scaled_le _ _ (and_255_le _) (by omega)) (by omega))]
  rw [pack_channels _ _ _
        (Nat.lt_of_le_of_lt (scaled_le _ _ (and_255_le _) (and_255_le _)) (by omega))
        (Nat.lt_of_le_of_lt (scaled_le _ _ (and_255_le _) (and_255_le _)) (by omega))]
  ring

theorem extract_red (R G B : Nat) (hR : R < 256) (hG : G < 256) (hB : B < 256) :
    redOf (R * 65536 + G * 256 + B) = R := by
  unfold redOf
  rw [shiftRight_16_eq]
  rw [show (0xFF : Nat) = 255 from rfl, and_255_eq_mod]
  omega

theorem extract_green (R G B : Nat) (hR : R < 256) (hG : G < 256) (hB : B < 256) :
    greenOf (R * 65536 + G * 256 + B) = G := by
  unfold greenOf
  rw [shiftRight_8_eq]
  rw [show (0xFF : Nat) = 255 from rfl, and_255_eq_mod]
  omega

theorem extract_blue (R G B : Nat) (hR : R < 256) (hG : G < 256) (hB : B < 256) :
    blueOf (R * 65536 + G * 256 + B) = B := by
  unfold blueOf
  rw [show (0xFF : Nat) = 255 from rfl, and_255_eq_mod]
  omega

theorem extract_alpha (R G B : Nat) (hR : R < 256) (hG : G < 256) (hB : B < 256) :
    alphaOf (R * 65536 + G * 256 + B) = 0 := by
  unfold alphaOf
  rw [shiftRight_24_eq]
  rw [show (0xFF : Nat) = 255 from rfl, and_255_eq_mod]
  omega

theorem channel_sum_lt (co cn a : Nat) (hco : co ≤ 255) (hcn : cn ≤ 255) (ha : a ≤ 255) :
    ((co * (255 - a)) >>> 8) + ((cn * a) >>> 8) < 256 := by
  have h := scaled_sum_le co cn a hco hcn ha
  omega

/-- Channel-wise description of a partial-alpha `blend` pixel: -/
theorem blendPixel_channels (old new : Color)
    (h0 : 0 < alphaOf new) (h1 : alphaOf new < 255) :
    redOf (blendPixel old new)
        = ((redOf new * alphaOf new) >>> 8) + ((redOf old * (255 - alphaOf new)) >>> 8)
    ∧ greenOf (blendPixel old new)
        = ((greenOf new * alphaOf new) >>> 8) + ((greenOf old * (255 - alphaOf new)) >>> 8)
    ∧ blueOf (blendPixel old new)
        = ((blueOf new * alphaOf new) >>> 8) + ((blueOf old * (255 - alphaOf new)) >>> 8)
    ∧ alphaOf (blendPixel old new) = 0 := by
  rw [blendPixel_mid old new h0 h1]
  have hα := alphaOf_le new
  have hr := channel_sum_lt (redOf old) (redOf new) (alphaOf new)
    (and_255_le _) (and_255_le _) hα
  have hg := channel_sum_lt (greenOf old) (greenOf new) (alphaOf new)
    (and_255_le _) (and_255_le _) hα
  have hb := channel_sum_lt (blueOf old) (blueOf new) (alphaOf new)
    (and_255_le _) (and_255_le _) hα
  refine ⟨?_, ?_, ?_, ?_⟩
  · rw [extract_red _ _ _ hr hg hb]; omega
  · rw [extract_green _ _ _ hr hg hb]; omega
  · rw [extract_blue _ _ _ hr hg hb]; omega
  · rw [extract_alpha _ _ _ hr hg hb]

/-- C4: `blend` computes partial-alpha compositing with the exact fixed-point
formula: for source alpha `a` with `0 < a < 255` each result channel is
`((new_channel * a) >> 8) + ((old_channel * (255 - a)) >> 8)`; in particular
for destination pixel `0xFF102030` and source pixel `0x80FFFFFF` the result
is `0x868E96`, whose red channel is `(255*128)>>8 + (16*127)>>8 = 127 + 7
= 134 = 0x86`, and analogously for green and blue. -/
theorem c4_blend_partial_alpha_formula (old new : Color)
    (h0 : 0 < alphaOf new) (h1 : alphaOf new < 255) :
    (redOf (blendPixel old new)
        = ((redOf new * alphaOf new) >>> 8) + ((redOf old * (255 - alphaOf new)) >>> 8))
    ∧ (greenOf (blendPixel old new)
        = ((greenOf new * alphaOf new) >>> 8) + ((greenOf old * (255 - alphaOf new)) >>> 8))
    ∧ (blueOf (blendPixel old new)
        = ((blueOf new * alphaOf new) >>> 8) + ((blueOf old * (255 - alphaOf new)) >>> 8))
    ∧ blendPixel 0xFF102030 0x80FFFFFF = 0x868E96
    ∧ redOf (blendPixel 0xFF102030 0x80FFFFFF) = 134
    ∧ ((255 * 128) >>> 8) + ((16 * 127) >>> 8) = 134 := by
  obtain ⟨hr, hg, hb, _⟩ := blendPixel_channels old new h0 h1
  exact ⟨hr, hg, hb, by decide, by decide, by decide⟩

theorem c4_witness :
    (0 < alphaOf 0x80FFFFFF ∧ alphaOf 0x80FFFFFF < 255)
    ∧ redOf (blendPixel 0xFF102030 0x80FFFFFF)
        = ((redOf 0x80FFFFFF * alphaOf 0x80FFFFFF) >>> 8)
          + ((redOf 0xFF102030 * (255 - alphaOf 0x80FFFFFF)) >>> 8) :=
  ⟨⟨by decide, by decide⟩,
   (c4_blend_partial_alpha_formula 0xFF102030 0x80FFFFFF (by decide) (by decide)).1⟩

/-- C9: for a partial-alpha blended pixel (`0 < a < 255`) the alpha byte of
the packed result is `0` (the destination's previous alpha is discarded),
and each per-channel sum `((new_c * a) >> 8) + ((old_c * (255 - a)) >> 8)`
is at most 254, so no channel addition carries into an adjacent byte. -/
theorem c9_blend_alpha_byte_and_no_carry (old new : Color)
    (h0 : 0 < alphaOf new) (h1 : alphaOf new < 255) :
    alphaOf (blendPixel old new) = 0
    ∧ ((redOf new * alphaOf new) >>> 8) + ((redOf old * (255 - alphaOf new)) >>> 8) ≤ 254
    ∧ ((greenOf new * alphaOf new) >>> 8) + ((greenOf old * (255 - alphaOf new)) >>> 8) ≤ 254
    ∧ ((blueOf new * alphaOf new) >>> 8) + ((blueOf old * (255 - alphaOf new)) >>> 8) ≤ 254 := by
  have hα := alphaOf_le new
  have hr := scaled_sum_le (redOf old) (redOf new) (alphaOf new)
    (and_255_le _) (and_255_le _) hα
  have hg := scaled_sum_le (greenOf old) (greenOf new) (alphaOf new)
    (and_255_le _) (and_255_le _) hα
  have hb := scaled_sum_le (blueOf old) (blueOf new) (alphaOf new)
    (and_255_le _) (and_255_le _) hα
  exact ⟨(blendPixel_channels old new h0 h1).2.2.2, hr, hg, hb⟩

theorem c9_witness :
    (0 < alphaOf 0x80FFFFFF ∧ alphaOf 0x80FFFFFF < 255)
    ∧ alphaOf (blendPixel 0xFF102030 0x80FFFFFF) = 0 :=
  ⟨⟨by decide, by decide⟩,
   (c9_blend_alpha_byte_and_no_carry 0xFF102030 0x80FFFFFF (by decide) (by decide)).1⟩

/-! ### Row iteration (C1) -/

theorem ImageRoiRows.next_none (it : ImageRoiRows) (h : it.rect.height ≤ it.i) :
    it.next = (none, it) := by
  unfold ImageRoiRows.next
  rw [if_neg (Nat.not_lt.mpr h)]

theorem ImageRoiRowsMut.mut_next_none (it : ImageRoiRowsMut) (h : it.rect.height ≤ it.i) :
    it.next = (none, it) := by
  unfold ImageRoiRowsMut.next
  rw [if_neg (Nat.not_lt.mpr h)]

theorem ImageRoiRows.collectFuel_succ (k : Nat) (rect : Rect) (w : Nat) (data : List Color)
    (i : Nat) (hi : i < rect.height) :
    ImageRoiRows.collectFuel (k + 1) ⟨rect, w, data, i⟩
      = ((data.drop ((rect.top + i) * w + rect.left)).take rect.width)
          :: ImageRoiRows.collectFuel k ⟨rect, w, data, i + 1⟩ := by
  show (match (ImageRoiRows.next ⟨rect, w, data, i⟩) with
    | (some row, it2) => row :: ImageRoiRows.collectFuel k it2
    | (none, _) => []) = _
  unfold ImageRoiRows.next
  rw [if_pos hi]

theorem ImageRoiRowsMut.mut_collectFuel_succ (k : Nat) (rect : Rect) (w : Nat) (data : List Color)
    (i : Nat) (hi : i < rect.height) :
    ImageRoiRowsMut.collectFuel (k + 1) ⟨rect, w, data, i⟩
      = ((data.drop ((rect.top + i) * w + rect.left)).take rect.width)
          :: ImageRoiRowsMut.collectFuel k ⟨rect, w, data, i + 1⟩ := by
  show (match (ImageRoiRowsMut.next ⟨rect, w, data, i⟩) with
    | (some row, it2) => row :: ImageRoiRowsMut.collectFuel k it2
    | (none, _) => []) = _
  unfold ImageRoiRowsMut.next
  rw [if_pos hi]

theorem ImageRoiRows.collectFuel_getElem (k : Nat) (rect : Rect) (w : Nat)
    (data : List Color) :
    ∀ i, rect.height - i = k → ∀ j,
      (ImageRoiRows.collectFuel k ⟨rect, w, data, i⟩)[j]? =
        if j < k then
          some ((data.drop ((rect.top + (i + j)) * w + rect.left)).take rect.width)
        else none := by
  induction k with
  | zero => intro i hk j; simp [ImageRoiRows.collectFuel]
  | succ k ih =>
    intro i hk j
    have hi : i < rect.height := by omega
    rw [ImageRoiRows.collectFuel_succ k rect w data i hi]
    cases j with
    | zero => simp
    | succ j =>
      rw [List.getElem?_cons_succ, ih (i + 1) (by omega) j]
      by_cases hj : j < k
      · rw [if_pos hj, if_pos (by omega)]
        have harg : i + 1 + j = i + (j + 1) := by omega
        rw [harg]
      · rw [if_neg hj, if_neg (by omega)]

theorem ImageRoiRowsMut.mut_collectFuel_getElem (k : Nat) (rect : Rect) (w : Nat)
    (data : List Color) :
    ∀ i, rect.height - i = k → ∀ j,
      (ImageRoiRowsMut.collectFuel k ⟨rect, w, data, i⟩)[j]? =
        if j < k then
          some ((data.drop ((rect.top + (i + j)) * w + rect.left)).take rect.width)
        else none := by
  induction k with
  | zero => intro i hk j; simp [ImageRoiRowsMut.collectFuel]
  | succ k ih =>
    intro i hk j
    have hi : i < rect.height := by omega
    rw [ImageRoiRowsMut.mut_collectFuel_succ k rect w data i hi]
    cases j with
    | zero => simp
    | succ j =>
      rw [List.getElem?_cons_succ, ih (i + 1) (by omega) j]
      by_cases hj : j < k
      · rw [if_pos hj, if_pos (by omega)]
        have harg : i + 1 + j = i + (j + 1) := by omega
        rw [harg]
      · rw [if_neg hj, if_neg (by omega)]

theorem ImageRoiRows.length_collectFuel (k : Nat) (rect : Rect) (w : Nat)
    (data : List Color) :
    ∀ i, rect.height - i = k →
      (ImageRoiRows.collectFuel k ⟨rect, w, data, i⟩).length = k := by
  induction k with
  | zero => intro i hk; rfl
  | succ k ih =>
    intro i hk
    have hi : i < rect.height := by omega
    rw [ImageRoiRows.collectFuel_succ k rect w data i hi, List.length_cons,
      ih (i + 1) (by omega)]

theorem ImageRoiRowsMut.mut_length_collectFuel (k : Nat) (rect : Rect) (w : Nat)
    (data : List Color) :
    ∀ i, rect.height - i = k →
      (ImageRoiRowsMut.collectFuel k ⟨rect, w, data, i⟩).length = k := by
  induction k with
  | zero => intro i hk; rfl
  | succ k ih =>
    intro i hk
    have hi : i < rect.height := by omega
    rw [ImageRoiRowsMut.mut_collectFuel_succ k rect w data i hi, List.length_cons,
      ih (i + 1) (by omega)]

/-- The end of each of the first `n` rows stays inside a buffer long enough
for `n` rows. -/
theorem rowStart_add_width_le (rect : Rect) (w len n i : Nat)
    (h1 : rect.left + rect.width ≤ w) (h2 : (rect.top + n) * w ≤ len)
    (hi : i < n) :
    rowStart rect w i + rect.width ≤ len := by
  unfold rowStart
  have hmul : (rect.top + i + 1) * w ≤ (rect.top + n) * w :=
    Nat.mul_le_mul_right w (by omega)
  have hexp : (rect.top + i + 1) * w = (rect.top + i) * w + w := by ring
  omega

/-- C1: for an ROI built from rect `R` over a buffer of stride `w`, both
`rows()` and `rows_mut()` yield exactly `R.height` rows, top to bottom, row
`i` being the slice of the backing array from `(R.top + i) * w + R.left`
(inclusive) extending `R.width` elements, so each yielded row has length
`R.width`; and either iterator yields nothing once `i` has reached
`R.height`. -/
theorem c1_rows_spec (roi : ImageRoi) (h : roi.inBounds) :
    (roi.rows.collect.length = roi.rect.height
      ∧ ∀ i, i < roi.rect.height →
          roi.rows.collect[i]? =
            some ((roi.data.drop ((roi.rect.top + i) * roi.w + roi.rect.left)).take
              roi.rect.width)
          ∧ ((roi.data.drop ((roi.rect.top + i) * roi.w + roi.rect.left)).take
              roi.rect.width).length = roi.rect.width)
    ∧ (roi.rows_mut.collect.length = roi.rect.height
      ∧ ∀ i, i < roi.rect.height →
          roi.rows_mut.collect[i]? =
            some ((roi.data.drop ((roi.rect.top + i) * roi.w + roi.rect.left)).take
              roi.rect.width))
    ∧ (∀ it : ImageRoiRows, it.rect.height ≤ it.i → it.next = (none, it))
    ∧ (∀ it : ImageRoiRowsMut, it.rect.height ≤ it.i → it.next = (none, it)) := by
  obtain ⟨h1, h2⟩ := h
  have hslice : ∀ i, i < roi.rect.height →
      ((roi.data.drop ((roi.rect.top + i) * roi.w + roi.rect.left)).take
        roi.rect.width).length = roi.rect.width := by
    intro i hi
    rw [List.length_take, List.length_drop]
    have hb := rowStart_add_width_le roi.rect roi.w roi.data.length roi.rect.height i h1 h2 hi
    unfold rowStart at hb
    omega
  refine ⟨⟨?_, ?_⟩, ⟨?_, ?_⟩, ?_, ?_⟩
  · exact ImageRoiRows.length_collectFuel (roi.rect.height - 0) roi.rect roi.w roi.data 0 rfl
  · intro i hi
    have hg := ImageRoiRows.collectFuel_getElem (roi.rect.height - 0) roi.rect roi.w
      roi.data 0 rfl i
    rw [if_pos (by omega)] at hg
    have h0 : (0 : Nat) + i = i := by omega
    rw [h0] at hg
    exact ⟨hg, hslice i hi⟩
  · exact ImageRoiRowsMut.mut_length_collectFuel (roi.rect.height - 0) roi.rect roi.w roi.data 0 rfl
  · intro i hi
    have hg := ImageRoiRowsMut.mut_collectFuel_getElem (roi.rect.height - 0) roi.rect roi.w
      roi.data 0 rfl i
    rw [if_pos (by omega)] at hg
    have h0 : (0 : Nat) + i = i := by omega
    rw [h0] at hg
    exact hg
  · exact fun it hit => ImageRoiRows.next_none it hit
  · exact fun it hit => ImageRoiRowsMut.mut_next_none it hit

theorem c1_witness :
    (ImageRoi.mk ⟨0, 0, 1, 2⟩ 1 [10, 20]).inBounds
    ∧ (ImageRoi.mk ⟨0, 0, 1, 2⟩ 1 [10, 20]).rows.collect.length = 2 :=
  ⟨by decide, (c1_rows_spec (ImageRoi.mk ⟨0, 0, 1, 2⟩ 1 [10, 20]) (by decide)).1.1⟩

/-! ### The state-passing compositing fold -/

theorem writeRow_nil (data : List Color) (s : Nat) : writeRow data s [] = data := by
  unfold writeRow
  simp

theorem length_writeRow (data : List Color) (s : Nat) (row : List Color)
    (h : s + row.length ≤ data.length) :
    (writeRow data s row).length = data.length := by
  unfold writeRow
  rw [List.length_append, List.length_append, List.length_take, List.length_drop]
  omega

theorem writeRow_getElem_lt (data : List Color) (s : Nat) (row : List Color)
    (h : s + row.length ≤ data.length) (p : Nat) (hp : p < s) :
    (writeRow data s row)[p]? = data[p]? := by
  unfold writeRow
  have hl : p < (data.take s).length := by
    rw [List.length_take]; omega
  have hl2 : p < (data.take s ++ row).length := by
    rw [List.length_append]; omega
  rw [List.getElem?_append_left hl2, List.getElem?_append_left hl,
    List.getElem?_take_of_lt hp]

theorem writeRow_getElem_mid (data : List Color) (s : Nat) (row : List Color)
    (h : s + row.length ≤ data.length) (p : Nat) (hp1 : s ≤ p) (hp2 : p < s + row.length) :
    (writeRow data s row)[p]? = row[p - s]? := by
  unfold writeRow
  have hl : (data.take s).length = s := by rw [List.length_take]; omega
  have hl2 : p < (data.take s ++ row).length := by
    rw [List.length_append, hl]; omega
  rw [List.getElem?_append_left hl2, List.getElem?_append_right (by rw [hl]; omega), hl]

theorem writeRow_getElem_ge (data : List Color) (s : Nat) (row : List Color)
    (h : s + row.length ≤ data.length) (p : Nat) (hp : s + row.length ≤ p) :
    (writeRow data s row)[p]? = data[p]? := by
  unfold writeRow
  have hl : (data.take s ++ row).length = s + row.length := by
    rw [List.length_append, List.length_take]; omega
  rw [List.getElem?_append_right (by rw [hl]; omega), hl, List.getElem?_drop]
  congr 1
  omega

/-- Writing back the row that was just read is a no-op on the array. -/
theorem writeRow_slice (data : List Color) (s n : Nat) :
    writeRow data s ((data.drop s).take n) = data := by
  unfold writeRow
  rcases Nat.le_total n (data.length - s) with hn | hn
  · have hlen : ((data.drop s).take n).length = n := by
      rw [List.length_take, List.length_drop]; omega
    rw [hlen, ← List.take_add, List.take_append_drop]
  · have htake : (data.drop s).take n = data.drop s := by
      apply List.take_of_length_le
      rw [List.length_drop]; omega
    rw [htake, List.length_drop]
    rcases Nat.le_total s data.length with hs | hs
    · have hidx : s + (data.length - s) = data.length := by omega
      rw [hidx, List.drop_eq_nil_of_le (Nat.le_refl _), List.append_nil,
        List.take_append_drop]
    · have h1 : data.take s = data := List.take_of_length_le (by omega)
      have h2 : data.drop s = [] := List.drop_eq_nil_of_le (by omega)
      rw [h1, h2]
      simp
      omega

/-- One iteration of the zipped-row loop, factored out of `roiOpAux`. -/
def opStep (f : List Color → List Color → List Color) (dst src : ImageRoi)
    (data : List Color) (i : Nat) : List Color :=
  writeRow data (rowStart dst.rect dst.w i)
    (f ((data.drop (rowStart dst.rect dst.w i)).take dst.rect.width)
      (rowSlice src.rect src.w src.data i))

theorem roiOpAux_eq_foldl (f : List Color → List Color → List Color)
    (dst src : ImageRoi) (n : Nat) :
    roiOpAux f dst src n = (List.range n).foldl (opStep f dst src) dst.data := rfl

theorem roiOpAux_succ (f : List Color → List Color → List Color)
    (dst src : ImageRoi) (n : Nat) :
    roiOpAux f dst src (n + 1) = opStep f dst src (roiOpAux f dst src n) n := by
  rw [roiOpAux_eq_foldl, roiOpAux_eq_foldl, List.range_succ, List.foldl_append]
  rfl

theorem length_opStep (f : List Color → List Color → List Color) (dst src : ImageRoi)
    (hf : ∀ a b, (f a b).length = a.length) (data : List Color) (i : Nat) :
    (opStep f dst src data i).length = data.length := by
  unfold opStep
  have hrow : (f ((data.drop (rowStart dst.rect dst.w i)).take dst.rect.width)
      (rowSlice src.rect src.w src.data i)).length
      = min dst.rect.width (data.length - rowStart dst.rect dst.w i) := by
    rw [hf, List.length_take, List.length_drop]
  rcases Nat.le_total (rowStart dst.rect dst.w i) data.length with hs | hs
  · exact length_writeRow _ _ _ (by rw [hrow]; omega)
  · have hnil : f ((data.drop (rowStart dst.rect dst.w i)).take dst.rect.width)
        (rowSlice src.rect src.w src.data i) = [] :=
      List.length_eq_zero.mp (by rw [hrow]; omega)
    rw [hnil, writeRow_nil]

theorem length_roiOpAux (f : List Color → List Color → List Color) (dst src : ImageRoi)
    (hf : ∀ a b, (f a b).length = a.length) (n : Nat) :
    (roiOpAux f dst src n).length = dst.data.length := by
  induction n with
  | zero => rfl
  | succ n ih =>
    rw [roiOpAux_succ, length_opStep f dst src hf, ih]

theorem opStep_getElem_outside (f : List Color → List Color → List Color)
    (dst src : ImageRoi) (hf : ∀ a b, (f a b).length = a.length)
    (data : List Color) (i p : Nat)
    (hp : ¬(rowStart dst.rect dst.w i ≤ p ∧ p < rowStart dst.rect dst.w i + dst.rect.width)) :
    (opStep f dst src data i)[p]? = data[p]? := by
  unfold opStep
  have hrow : (f ((data.drop (rowStart dst.rect dst.w i)).take dst.rect.width)
      (rowSlice src.rect src.w src.data i)).length
      = min dst.rect.width (data.length - rowStart dst.rect dst.w i) := by
    rw [hf, List.length_take, List.length_drop]
  rcases Nat.le_total (rowStart dst.rect dst.w i) data.length with hs | hs
  · rcases Nat.lt_or_ge p (rowStart dst.rect dst.w i) with hps | hps
    · exact writeRow_getElem_lt _ _ _ (by rw [hrow]; omega) p hps
    · exact writeRow_getElem_ge _ _ _ (by rw [hrow]; omega) p (by rw [hrow]; omega)
  · have hnil : f ((data.drop (rowStart dst.rect dst.w i)).take dst.rect.width)
        (rowSlice src.rect src.w src.data i) = [] :=
      List.length_eq_zero.mp (by rw [hrow]; omega)
    rw [hnil, writeRow_nil]

/-- Pixels outside every processed row segment are not modified by the fold. -/
theorem roiOpAux_getElem_outside (f : List Color → List Color → List Color)
    (dst src : ImageRoi) (hf : ∀ a b, (f a b).length = a.length) (n p : Nat)
    (hp : ∀ i, i < n →
      ¬(rowStart dst.rect dst.w i ≤ p ∧ p < rowStart dst.rect dst.w i + dst.rect.width)) :
    (roiOpAux f dst src n)[p]? = dst.data[p]? := by
  induction n with
  | zero => rfl
  | succ n ih =>
    rw [roiOpAux_succ,
      opStep_getElem_outside f dst src hf _ n p (hp n (Nat.lt_succ_self n))]
    exact ih (fun i hi => hp i (by omega))

/-- Rows of an in-bounds rect occupy disjoint, increasing segments. -/
theorem rowStart_mono (rect : Rect) (w : Nat) (h1 : rect.left + rect.width ≤ w)
    (i i' : Nat) (h : i < i') :
    rowStart rect w i + rect.width ≤ rowStart rect w i' := by
  unfold rowStart
  have hmul : (rect.top + i + 1) * w ≤ (rect.top + i') * w :=
    Nat.mul_le_mul_right w (by omega)
  have hexp : (rect.top + i + 1) * w = (rect.top + i) * w + w := by ring
  omega

/-- Pixel `j` of processed row `i` holds pixel `j` of `rowFn` applied to the
original destination row and the source row. -/
theorem roiOpAux_getElem_row (f : List Color → List Color → List Color)
    (dst src : ImageRoi) (hf : ∀ a b, (f a b).length = a.length)
    (h1 : dst.rect.left + dst.rect.width ≤ dst.w) (n : Nat)
    (h2 : (dst.rect.top + n) * dst.w ≤ dst.data.length)
    (i : Nat) (hi : i < n) (j : Nat) (hj : j < dst.rect.width) :
    (roiOpAux f dst src n)[rowStart dst.rect dst.w i + j]? =
      (f (rowSlice dst.rect dst.w dst.data i) (rowSlice src.rect src.w src.data i))[j]? := by
  induction n with
  | zero => omega
  | succ n ih =>
    have h2n : (dst.rect.top + n) * dst.w ≤ dst.data.length := by
      have hstep := Nat.mul_le_mul_right dst.w
        (show dst.rect.top + n ≤ dst.rect.top + (n + 1) by omega)
      omega
    rw [roiOpAux_succ]
    rcases Nat.lt_or_ge i n with hin | hin
    · have hord : rowStart dst.rect dst.w i + dst.rect.width ≤ rowStart dst.rect dst.w n :=
        rowStart_mono dst.rect dst.w h1 i n hin
      rw [opStep_getElem_outside f dst src hf _ n _ (by omega)]
      exact ih h2n hin
    · have hieq : i = n := by omega
      subst hieq
      have hds : rowStart dst.rect dst.w i + dst.rect.width ≤ dst.data.length :=
        rowStart_add_width_le dst.rect dst.w dst.data.length (i + 1) i h1 h2
          (Nat.lt_succ_self i)
      have hlen := length_roiOpAux f dst src hf i
      have hdrow : ((roiOpAux f dst src i).drop (rowStart dst.rect dst.w i)).take
          dst.rect.width = rowSlice dst.rect dst.w dst.data i := by
        apply List.ext_getElem?
        intro j'
        rcases Nat.lt_or_ge j' dst.rect.width with hj' | hj'
        · rw [List.getElem?_take_of_lt hj', List.getElem?_drop]
          unfold rowSlice
          rw [List.getElem?_take_of_lt hj', List.getElem?_drop]
          apply roiOpAux_getElem_outside f dst src hf i _
          intro i' hi'
          have hmono := rowStart_mono dst.rect dst.w h1 i' i hi'
          omega
        · have l1 : (((roiOpAux f dst src i).drop (rowStart dst.rect dst.w i)).take
              dst.rect.width).length ≤ j' := by
            rw [List.length_take]; omega
          have l2 : (rowSlice dst.rect dst.w dst.data i).length ≤ j' := by
            unfold rowSlice
            rw [List.length_take]; omega
          rw [List.getElem?_eq_none l1, List.getElem?_eq_none l2]
      unfold opStep
      rw [hdrow]
      have hrowlen : (f (rowSlice dst.rect dst.w dst.data i)
          (rowSlice src.rect src.w src.data i)).length = dst.rect.width := by
        rw [hf]
        unfold rowSlice
        rw [List.length_take, List.length_drop]
        omega
      rw [writeRow_getElem_mid _ _ _ (by rw [hrowlen, hlen]; omega) _ (by omega)
        (by rw [hrowlen]; omega)]
      congr 1
      omega

/-! ### Per-row behaviour of `blend` and `blit` -/

theorem length_blendRow (a b : List Color) : (blendRow a b).length = a.length := by
  unfold blendRow
  rw [List.length_append, List.length_zipWith, List.length_drop]
  omega

theorem length_blitRow (a b : List Color) : (blitRow a b).length = a.length := by
  unfold blitRow
  rw [List.length_append, List.length_take, List.length_drop]
  omega

/-- Inside the zipped prefix, `blend` applies `blendPixel` pointwise. -/
theorem blendRow_getElem_lt (a b : List Color) (j : Nat) (hj : j < min a.length b.length)
    (o nw : Color) (ho : a[j]? = some o) (hnw : b[j]? = some nw) :
    (blendRow a b)[j]? = some (blendPixel o nw) := by
  unfold blendRow
  have hz : j < (List.zipWith blendPixel a b).length := by
    rw [List.length_zipWith]; omega
  rw [List.getElem?_append_left hz, List.getElem?_zipWith, ho, hnw]

/-- Beyond the source row, `blend` leaves the destination row unchanged. -/
theorem blendRow_getElem_ge (a b : List Color) (j : Nat) (hj : b.length ≤ j) :
    (blendRow a b)[j]? = a[j]? := by
  unfold blendRow
  have hz : (List.zipWith blendPixel a b).length = min a.length b.length :=
    List.length_zipWith _ _ _
  rw [List.getElem?_append_right (by omega), hz, List.getElem?_drop]
  rcases Nat.le_total a.length b.length with hab | hab
  · have hmin : min a.length b.length = a.length := by omega
    rw [hmin]
    rw [List.getElem?_eq_none (by omega), List.getElem?_eq_none (by omega)]
  · have hmin : min a.length b.length = b.length := by omega
    rw [hmin]
    congr 1
    omega

/-- Inside the copied prefix, `blit` takes the source pixel. -/
theorem blitRow_getElem_lt (a b : List Color) (j : Nat) (hj : j < min a.length b.length) :
    (blitRow a b)[j]? = b[j]? := by
  unfold blitRow
  have ht : j < (b.take (min a.length b.length)).length := by
    rw [List.length_take]; omega
  rw [List.getElem?_append_left ht, List.getElem?_take_of_lt hj]

/-- Beyond the copied prefix, `blit` leaves the destination row unchanged. -/
theorem blitRow_getElem_ge (a b : List Color) (j : Nat) (hj : min a.length b.length ≤ j) :
    (blitRow a b)[j]? = a[j]? := by
  unfold blitRow
  have ht : (b.take (min a.length b.length)).length = min a.length b.length := by
    rw [List.length_take]; omega
  rw [List.getElem?_append_right (by omega), ht, List.getElem?_drop]
  congr 1
  omega

theorem rowSlice_getElem (rect : Rect) (w : Nat) (data : List Color) (i j : Nat)
    (hj : j < rect.width) :
    (rowSlice rect w data i)[j]? = data[rowStart rect w i + j]? := by
  unfold rowSlice
  rw [List.getElem?_take_of_lt hj, List.getElem?_drop]

theorem length_rowSlice (rect : Rect) (w : Nat) (data : List Color) (i : Nat)
    (hle : rowStart rect w i + rect.width ≤ data.length) :
    (rowSlice rect w data i).length = rect.width := by
  unfold rowSlice
  rw [List.length_take, List.length_drop]
  omega

theorem inBounds_rows_le (roi : ImageRoi) (h : roi.inBounds) (k : Nat)
    (hk : k ≤ roi.rect.height) :
    (roi.rect.top + k) * roi.w ≤ roi.data.length := by
  obtain ⟨h1, h2⟩ := h
  have hmul := Nat.mul_le_mul_right roi.w
    (show roi.rect.top + k ≤ roi.rect.top + roi.rect.height by omega)
  omega

/-- C5: when destination and source ROIs differ in dimensions, `blend` and
`blit` process exactly `min(dst.height, src.height)` rows and, within each
processed row, exactly `min(dst.width, src.width)` pixels — each such
destination pixel receives the blended (resp. copied source) value — while
every destination pixel outside this overlap is unchanged; neither operation
pads, clamps otherwise, or signals an error (both are total functions on the
overlap). -/
theorem c5_truncated_overlap (dst src : ImageRoi) (hd : dst.inBounds) (hs : src.inBounds) :
    (∀ i, i < min dst.rect.height src.rect.height →
      ∀ j, j < min dst.rect.width src.rect.width →
        ∀ o nw, dst.data[rowStart dst.rect dst.w i + j]? = some o →
          src.data[rowStart src.rect src.w i + j]? = some nw →
          (dst.blend src)[rowStart dst.rect dst.w i + j]? = some (blendPixel o nw)
          ∧ (dst.blit src)[rowStart dst.rect dst.w i + j]? = some nw)
    ∧ (∀ p, (∀ i, i < min dst.rect.height src.rect.height →
          ∀ j, j < min dst.rect.width src.rect.width →
            p ≠ rowStart dst.rect dst.w i + j) →
        (dst.blend src)[p]? = dst.data[p]?
        ∧ (dst.blit src)[p]? = dst.data[p]?) := by
  have h2k : (dst.rect.top + min dst.rect.height src.rect.height) * dst.w
      ≤ dst.data.length :=
    inBounds_rows_le dst hd _ (Nat.min_le_left _ _)
  have h2ks : (src.rect.top + min dst.rect.height src.rect.height) * src.w
      ≤ src.data.length :=
    inBounds_rows_le src hs _ (Nat.min_le_right _ _)
  have hdsb : ∀ i, i < min dst.rect.height src.rect.height →
      rowStart dst.rect dst.w i + dst.rect.width ≤ dst.data.length := fun i hi =>
    rowStart_add_width_le dst.rect dst.w dst.data.length _ i hd.1 h2k hi
  have hssb : ∀ i, i < min dst.rect.height src.rect.height →
      rowStart src.rect src.w i + src.rect.width ≤ src.data.length := fun i hi =>
    rowStart_add_width_le src.rect src.w src.data.length _ i hs.1 h2ks hi
  constructor
  · intro i hik j hjm o nw ho hnw
    have halen : (rowSlice dst.rect dst.w dst.data i).length = dst.rect.width :=
      length_rowSlice dst.rect dst.w dst.data i (hdsb i hik)
    have hblen : (rowSlice src.rect src.w src.data i).length = src.rect.width :=
      length_rowSlice src.rect src.w src.data i (hssb i hik)
    have ho2 : (rowSlice dst.rect dst.w dst.data i)[j]? = some o := by
      rw [rowSlice_getElem dst.rect dst.w dst.data i j (by omega)]
      exact ho
    have hnw2 : (rowSlice src.rect src.w src.data i)[j]? = some nw := by
      rw [rowSlice_getElem src.rect src.w src.data i j (by omega)]
      exact hnw
    constructor
    · show (roiOpAux blendRow dst src (min dst.rect.height src.rect.height))[
        rowStart dst.rect dst.w i + j]? = some (blendPixel o nw)
      rw [roiOpAux_getElem_row blendRow dst src length_blendRow hd.1 _ h2k i hik j
        (by omega)]
      exact blendRow_getElem_lt _ _ j (by rw [halen, hblen]; omega) o nw ho2 hnw2
    · show (roiOpAux blitRow dst src (min dst.rect.height src.rect.height))[
        rowStart dst.rect dst.w i + j]? = some nw
      rw [roiOpAux_getElem_row blitRow dst src length_blitRow hd.1 _ h2k i hik j
        (by omega)]
      rw [blitRow_getElem_lt _ _ j (by rw [halen, hblen]; omega)]
      exact hnw2
  · intro p hp
    by_cases hcase : ∃ i, i < min dst.rect.height src.rect.height ∧
        rowStart dst.rect dst.w i ≤ p ∧ p < rowStart dst.rect dst.w i + dst.rect.width
    · obtain ⟨i, hik, hp1, hp2⟩ := hcase
      have halen : (rowSlice dst.rect dst.w dst.data i).length = dst.rect.width :=
        length_rowSlice dst.rect dst.w dst.data i (hdsb i hik)
      have hblen : (rowSlice src.rect src.w src.data i).length = src.rect.width :=
        length_rowSlice src.rect src.w src.data i (hssb i hik)
      have hpj : p = rowStart dst.rect dst.w i + (p - rowStart dst.rect dst.w i) := by
        omega
      have hjw : p - rowStart dst.rect dst.w i < dst.rect.width := by omega
      have hjm : ¬(p - rowStart dst.rect dst.w i < min dst.rect.width src.rect.width) := by
        intro hcon
        exact hp i hik (p - rowStart dst.rect dst.w i) hcon (by omega)
      have hsw : src.rect.width ≤ p - rowStart dst.rect dst.w i := by omega
      constructor
      · show (roiOpAux blendRow dst src (min dst.rect.height src.rect.height))[p]?
          = dst.data[p]?
        rw [hpj, roiOpAux_getElem_row blendRow dst src length_blendRow hd.1 _ h2k i hik
          _ hjw]
        rw [blendRow_getElem_ge _ _ _ (by omega)]
        exact rowSlice_getElem dst.rect dst.w dst.data i _ hjw
      · show (roiOpAux blitRow dst src (min dst.rect.height src.rect.height))[p]?
          = dst.data[p]?
        rw [hpj, roiOpAux_getElem_row blitRow dst src length_blitRow hd.1 _ h2k i hik
          _ hjw]
        rw [blitRow_getElem_ge _ _ _ (by omega)]
        exact rowSlice_getElem dst.rect dst.w dst.data i _ hjw
    · push_neg at hcase
      have hout : ∀ i, i < min dst.rect.height src.rect.height →
          ¬(rowStart dst.rect dst.w i ≤ p ∧ p < rowStart dst.rect dst.w i + dst.rect.width) := by
        intro i hi hcon
        exact absurd hcon.2 (by have := hcase i hi hcon.1; omega)
      exact ⟨roiOpAux_getElem_outside blendRow dst src length_blendRow _ p hout,
        roiOpAux_getElem_outside blitRow dst src length_blitRow _ p hout⟩

theorem c5_witness :
    ((ImageRoi.mk ⟨0, 0, 2, 1⟩ 2 [1, 2]).inBounds
      ∧ (ImageRoi.mk ⟨0, 0, 1, 1⟩ 1 [0xFF000005]).inBounds)
    ∧ ((ImageRoi.mk ⟨0, 0, 2, 1⟩ 2 [1, 2]).blend
          (ImageRoi.mk ⟨0, 0, 1, 1⟩ 1 [0xFF000005]))[1]?
        = (ImageRoi.mk ⟨0, 0, 2, 1⟩ 2 [1, 2]).data[1]?
    ∧ ((ImageRoi.mk ⟨0, 0, 2, 1⟩ 2 [1, 2]).blit
          (ImageRoi.mk ⟨0, 0, 1, 1⟩ 1 [0xFF000005]))[1]?
        = (ImageRoi.mk ⟨0, 0, 2, 1⟩ 2 [1, 2]).data[1]? :=
  ⟨⟨by decide, by decide⟩,
    (c5_truncated_overlap (ImageRoi.mk ⟨0, 0, 2, 1⟩ 2 [1, 2])
      (ImageRoi.mk ⟨0, 0, 1, 1⟩ 1 [0xFF000005]) (by decide) (by decide)).2 1 (by decide)⟩

/-- C2: for in-bounds destination and source ROIs whose source pixels (over
the processed overlap) all carry alpha `0xFF`, `blend` copies every
overlapping source pixel verbatim into the destination. -/
theorem c2_full_opacity_replacement (dst src : ImageRoi) (hd : dst.inBounds)
    (hs : src.inBounds)
    (halpha : ∀ i, i < min dst.rect.height src.rect.height →
      ∀ j, j < src.rect.width →
        alphaOf (src.data.getD (rowStart src.rect src.w i + j) 0) = 255) :
    ∀ i, i < min dst.rect.height src.rect.height →
      ∀ j, j < min dst.rect.width src.rect.width →
        (dst.blend src)[rowStart dst.rect dst.w i + j]?
          = src.data[rowStart src.rect src.w i + j]? := by
  have h2k : (dst.rect.top + min dst.rect.height src.rect.height) * dst.w
      ≤ dst.data.length :=
    inBounds_rows_le dst hd _ (Nat.min_le_left _ _)
  have h2ks : (src.rect.top + min dst.rect.height src.rect.height) * src.w
      ≤ src.data.length :=
    inBounds_rows_le src hs _ (Nat.min_le_right _ _)
  intro i hik j hjm
  have hdsb : rowStart dst.rect dst.w i + dst.rect.width ≤ dst.data.length :=
    rowStart_add_width_le dst.rect dst.w dst.data.length _ i hd.1 h2k hik
  have hssb : rowStart src.rect src.w i + src.rect.width ≤ src.data.length :=
    rowStart_add_width_le src.rect src.w src.data.length _ i hs.1 h2ks hik
  have halen : (rowSlice dst.rect dst.w dst.data i).length = dst.rect.width :=
    length_rowSlice dst.rect dst.w dst.data i hdsb
  have hblen : (rowSlice src.rect src.w src.data i).length = src.rect.width :=
    length_rowSlice src.rect src.w src.data i hssb
  have hdidx : rowStart dst.rect dst.w i + j < dst.data.length := by omega
  have hsidx : rowStart src.rect src.w i + j < src.data.length := by omega
  obtain ⟨o, ho⟩ : ∃ o, dst.data[rowStart dst.rect dst.w i + j]? = some o :=
    ⟨_, List.getElem?_eq_getElem hdidx⟩
  obtain ⟨nw, hnw⟩ : ∃ nw, src.data[rowStart src.rect src.w i + j]? = some nw :=
    ⟨_, List.getElem?_eq_getElem hsidx⟩
  have halphav : alphaOf nw = 255 := by
    have hh := halpha i hik j (by omega)
    rw [List.getD_eq_getElem?_getD, hnw] at hh
    exact hh
  have ho2 : (rowSlice dst.rect dst.w dst.data i)[j]? = some o := by
    rw [rowSlice_getElem dst.rect dst.w dst.data i j (by omega)]
    exact ho
  have hnw2 : (rowSlice src.rect src.w src.data i)[j]? = some nw := by
    rw [rowSlice_getElem src.rect src.w src.data i j (by omega)]
    exact hnw
  show (roiOpAux blendRow dst src (min dst.rect.height src.rect.height))[
      rowStart dst.rect dst.w i + j]? = src.data[rowStart src.rect src.w i + j]?
  rw [roiOpAux_getElem_row blendRow dst src length_blendRow hd.1 _ h2k i hik j (by omega)]
  rw [blendRow_getElem_lt _ _ j (by rw [halen, hblen]; omega) _ _ ho2 hnw2]
  rw [blendPixel_replace _ _ (by omega)]
  exact hnw.symm

theorem c2_witness :
    ((ImageRoi.mk ⟨0, 0, 1, 1⟩ 1 [0x11223344]).inBounds
      ∧ (ImageRoi.mk ⟨0, 0, 1, 1⟩ 1 [0xFFABCDEF]).inBounds)
    ∧ ((ImageRoi.mk ⟨0, 0, 1, 1⟩ 1 [0x11223344]).blend
          (ImageRoi.mk ⟨0, 0, 1, 1⟩ 1 [0xFFABCDEF]))[
        rowStart (Rect.mk 0 0 1 1) 1 0 + 0]?
        = (ImageRoi.mk ⟨0, 0, 1, 1⟩ 1 [0xFFABCDEF]).data[
            rowStart (Rect.mk 0 0 1 1) 1 0 + 0]? :=
  ⟨⟨by decide, by decide⟩,
    c2_full_opacity_replacement (ImageRoi.mk ⟨0, 0, 1, 1⟩ 1 [0x11223344])
      (ImageRoi.mk ⟨0, 0, 1, 1⟩ 1 [0xFFABCDEF]) (by decide) (by decide) (by decide)
      0 (by decide) 0 (by decide)⟩

/-- C3: for in-bounds destination and source ROIs whose source pixels (over
the processed overlap) all carry alpha `0x00`, `blend` returns the
destination buffer completely unchanged — every overlapping pixel and every
other pixel of the destination array keeps its exact previous value. -/
theorem c3_zero_opacity_noop (dst src : ImageRoi) (hd : dst.inBounds) (hs : src.inBounds)
    (halpha : ∀ i, i < min dst.rect.height src.rect.height →
      ∀ j, j < src.rect.width →
        alphaOf (src.data.getD (rowStart src.rect src.w i + j) 0) = 0) :
    dst.blend src = dst.data := by
  have h2k : (dst.rect.top + min dst.rect.height src.rect.height) * dst.w
      ≤ dst.data.length :=
    inBounds_rows_le dst hd _ (Nat.min_le_left _ _)
  have h2ks : (src.rect.top + min dst.rect.height src.rect.height) * src.w
      ≤ src.data.length :=
    inBounds_rows_le src hs _ (Nat.min_le_right _ _)
  apply List.ext_getElem?
  intro p
  by_cases hcase : ∃ i, i < min dst.rect.height src.rect.height ∧
      rowStart dst.rect dst.w i ≤ p ∧ p < rowStart dst.rect dst.w i + dst.rect.width
  · obtain ⟨i, hik, hp1, hp2⟩ := hcase
    have hdsb : rowStart dst.rect dst.w i + dst.rect.width ≤ dst.data.length :=
      rowStart_add_width_le dst.rect dst.w dst.data.length _ i hd.1 h2k hik
    have hssb : rowStart src.rect src.w i + src.rect.width ≤ src.data.length :=
      rowStart_add_width_le src.rect src.w src.data.length _ i hs.1 h2ks hik
    have halen : (rowSlice dst.rect dst.w dst.data i).length = dst.rect.width :=
      length_rowSlice dst.rect dst.w dst.data i hdsb
    have hblen : (rowSlice src.rect src.w src.data i).length = src.rect.width :=
      length_rowSlice src.rect src.w src.data i hssb
    have hjw : p - rowStart dst.rect dst.w i < dst.rect.width := by omega
    have hpj : p = rowStart dst.rect dst.w i + (p - rowStart dst.rect dst.w i) := by
      omega
    rw [hpj]
    show (roiOpAux blendRow dst src (min dst.rect.height src.rect.height))[
        rowStart dst.rect dst.w i + (p - rowStart dst.rect dst.w i)]?
      = dst.data[rowStart dst.rect dst.w i + (p - rowStart dst.rect dst.w i)]?
    rw [roiOpAux_getElem_row blendRow dst src length_blendRow hd.1 _ h2k i hik _ hjw]
    by_cases hjm : p - rowStart dst.rect dst.w i < src.rect.width
    · have hdidx : rowStart dst.rect dst.w i + (p - rowStart dst.rect dst.w i)
          < dst.data.length := by omega
      have hsidx : rowStart src.rect src.w i + (p - rowStart dst.rect dst.w i)
          < src.data.length := by omega
      obtain ⟨o, ho⟩ : ∃ o,
          dst.data[rowStart dst.rect dst.w i + (p - rowStart dst.rect dst.w i)]? = some o :=
        ⟨_, List.getElem?_eq_getElem hdidx⟩
      obtain ⟨nw, hnw⟩ : ∃ nw,
          src.data[rowStart src.rect src.w i + (p - rowStart dst.rect dst.w i)]? = some nw :=
        ⟨_, List.getElem?_eq_getElem hsidx⟩
      have halphav : alphaOf nw = 0 := by
        have hh := halpha i hik _ hjm
        rw [List.getD_eq_getElem?_getD, hnw] at hh
        exact hh
      have ho2 : (rowSlice dst.rect dst.w dst.data i)[p - rowStart dst.rect dst.w i]? =
          some o := by
        rw [rowSlice_getElem dst.rect dst.w dst.data i _ hjw]
        exact ho
      have hnw2 : (rowSlice src.rect src.w src.data i)[p - rowStart dst.rect dst.w i]? =
          some nw := by
        rw [rowSlice_getElem src.rect src.w src.data i _ hjm]
        exact hnw
      rw [blendRow_getElem_lt _ _ _ (by rw [halen, hblen]; omega) _ _ ho2 hnw2]
      rw [blendPixel_transparent _ _ halphav]
      exact ho.symm
    · rw [blendRow_getElem_ge _ _ _ (by omega)]
      exact rowSlice_getElem dst.rect dst.w dst.data i _ hjw
  · push_neg at hcase
    have hout : ∀ i, i < min dst.rect.height src.rect.height →
        ¬(rowStart dst.rect dst.w i ≤ p ∧ p < rowStart dst.rect dst.w i + dst.rect.width) := by
      intro i hi hcon
      exact absurd hcon.2 (by have := hcase i hi hcon.1; omega)
    exact roiOpAux_getElem_outside blendRow dst src length_blendRow _ p hout

theorem c3_witness :
    ((ImageRoi.mk ⟨0, 0, 1, 1⟩ 1 [0x11223344]).inBounds
      ∧ (ImageRoi.mk ⟨0, 0, 1, 1⟩ 1 [0x00FFFFFF]).inBounds)
    ∧ (ImageRoi.mk ⟨0, 0, 1, 1⟩ 1 [0x11223344]).blend
        (ImageRoi.mk ⟨0, 0, 1, 1⟩ 1 [0x00FFFFFF])
      = (ImageRoi.mk ⟨0, 0, 1, 1⟩ 1 [0x11223344]).data :=
  ⟨⟨by decide, by decide⟩,
    c3_zero_opacity_noop (ImageRoi.mk ⟨0, 0, 1, 1⟩ 1 [0x11223344])
      (ImageRoi.mk ⟨0, 0, 1, 1⟩ 1 [0x00FFFFFF]) (by decide) (by decide) (by decide)⟩

theorem blitRow_self (a : List Color) : blitRow a a = a := by
  unfold blitRow
  rw [Nat.min_self, List.take_length, List.drop_length, List.append_nil]

/-- C6: `blit` with the same in-bounds ROI as destination and source (same
rect, same stride, same backing array) leaves every pixel of the backing
array unchanged. -/
theorem c6_blit_self_id (roi : ImageRoi) (h : roi.inBounds) :
    roi.blit roi = roi.data := by
  show roiOpAux blitRow roi roi (min roi.rect.height roi.rect.height) = roi.data
  have key : ∀ n, roiOpAux blitRow roi roi n = roi.data := by
    intro n
    induction n with
    | zero => rfl
    | succ n ih =>
      rw [roiOpAux_succ, ih]
      show writeRow roi.data (rowStart roi.rect roi.w n)
        (blitRow ((roi.data.drop (rowStart roi.rect roi.w n)).take roi.rect.width)
          (rowSlice roi.rect roi.w roi.data n)) = roi.data
      unfold rowSlice
      rw [blitRow_self]
      exact writeRow_slice roi.data (rowStart roi.rect roi.w n) roi.rect.width
  exact key _

theorem c6_witness :
    (ImageRoi.mk ⟨0, 0, 1, 1⟩ 1 [9]).inBounds
    ∧ (ImageRoi.mk ⟨0, 0, 1, 1⟩ 1 [9]).blit (ImageRoi.mk ⟨0, 0, 1, 1⟩ 1 [9])
        = (ImageRoi.mk ⟨0, 0, 1, 1⟩ 1 [9]).data :=
  ⟨by decide, c6_blit_self_id (ImageRoi.mk ⟨0, 0, 1, 1⟩ 1 [9]) (by decide)⟩

/-- C10: for an in-bounds destination ROI with rect `R` over stride `w`,
`blend` and `blit` modify only array positions of the form
`(R.top + i) * w + R.left + j` with `i < R.height` and `j < R.width`: every
other position of the destination array keeps its value.  (The source array
is read-only by construction in this model: both operations return only a
new destination array and never rewrite `src.data`.) -/
theorem c10_frame (dst src : ImageRoi) (hd : dst.inBounds) :
    ∀ p, (∀ i, i < dst.rect.height → ∀ j, j < dst.rect.width →
        p ≠ rowStart dst.rect dst.w i + j) →
      (dst.blend src)[p]? = dst.data[p]?
      ∧ (dst.blit src)[p]? = dst.data[p]? := by
  intro p hp
  have hout : ∀ i, i < min dst.rect.height src.rect.height →
      ¬(rowStart dst.rect dst.w i ≤ p ∧ p < rowStart dst.rect dst.w i + dst.rect.width) := by
    intro i hi hcon
    exact hp i (by omega) (p - rowStart dst.rect dst.w i) (by omega) (by omega)
  exact ⟨roiOpAux_getElem_outside blendRow dst src length_blendRow _ p hout,
    roiOpAux_getElem_outside blitRow dst src length_blitRow _ p hout⟩

theorem c10_witness :
    (ImageRoi.mk ⟨0, 0, 1, 1⟩ 1 [7, 8]).inBounds
    ∧ ((ImageRoi.mk ⟨0, 0, 1, 1⟩ 1 [7, 8]).blend (ImageRoi.mk ⟨0, 0, 1, 1⟩ 1 [0xFF000001]))[1]?
        = (ImageRoi.mk ⟨0, 0, 1, 1⟩ 1 [7, 8]).data[1]?
    ∧ ((ImageRoi.mk ⟨0, 0, 1, 1⟩ 1 [7, 8]).blit (ImageRoi.mk ⟨0, 0, 1, 1⟩ 1 [0xFF000001]))[1]?
        = (ImageRoi.mk ⟨0, 0, 1, 1⟩ 1 [7, 8]).data[1]? :=
  ⟨by decide,
    c10_frame (ImageRoi.mk ⟨0, 0, 1, 1⟩ 1 [7, 8])
      (ImageRoi.mk ⟨0, 0, 1, 1⟩ 1 [0xFF000001]) (by decide) 1 (by decide)⟩

/-! ### Buffer constructors (C7, C8) -/

/-- Rounding the byte size up to a multiple of `align` never loses pixels. -/
theorem align_round_up_le (x align : Nat) (ha : 0 < align) :
    x ≤ (x + align - 1) / align * align := by
  have hdm := Nat.div_add_mod (x + align - 1) align
  have hmod : (x + align - 1) % align < align := Nat.mod_lt _ ha
  have hcomm : (x + align - 1) / align * align
      = align * ((x + align - 1) / align) := Nat.mul_comm _ _
  omega

/-- C7: every constructed buffer satisfies the dimension invariant:
`data().length = width() * height()` for the Owned constructors (`new`,
`from_color`, `from_data` under its exact-length contract, `from_path` when
the decoder's triple is consistent) and for `ImageRef::from_data`, while
`ImageAligned::new` yields `data().length ≥ width * height` with the padding
beyond `width * height` zero-filled. -/
theorem c7_dimension_invariant :
    (∀ w h, (Image.new w h).data.length = (Image.new w h).width * (Image.new w h).height)
    ∧ (∀ w h c, (Image.from_color w h c).data.length
        = (Image.from_color w h c).width * (Image.from_color w h c).height)
    ∧ (∀ w h d, d.length = w * h →
        (Image.from_data w h d).data.length
          = (Image.from_data w h d).width * (Image.from_data w h d).height)
    ∧ (∀ w h d, d.length = w * h →
        ∀ img, (Image.from_path (Except.ok (w, h, d))).1 = some img →
          img.data.length = img.width * img.height)
    ∧ (∀ w h d, d.length = w * h →
        (ImageRef.from_data w h d).data.length
          = (ImageRef.from_data w h d).width * (ImageRef.from_data w h d).height)
    ∧ (∀ w h align, 0 < align →
        w * h ≤ (ImageAligned.new w h align).data.length
        ∧ ∀ p, w * h ≤ p → (ImageAligned.new w h align).data.getD p 0 = 0) := by
  refine ⟨?_, ?_, ?_, ?_, ?_, ?_⟩
  · intro w h
    simp [Image.new, Image.from_color, Image.from_data, Image.width, Image.height]
  · intro w h c
    simp [Image.from_color, Image.from_data, Image.width, Image.height]
  · intro w h d hd
    simpa [Image.from_data, Image.width, Image.height] using hd
  · intro w h d hd img himg
    have hred : (Image.from_path (Except.ok (w, h, d))).1 = some (Image.from_data w h d) :=
      rfl
    rw [hred] at himg
    injection himg with himg2
    subst himg2
    simpa [Image.from_data, Image.width, Image.height] using hd
  · intro w h d hd
    simpa [ImageRef.from_data, ImageRef.width, ImageRef.height] using hd
  · intro w h align ha
    constructor
    · show w * h ≤ (List.replicate ((w * h * 4 + align - 1) / align * align / 4) 0).length
      rw [List.length_replicate]
      have hkey := align_round_up_le (w * h * 4) align ha
      omega
    · intro p hp
      show (List.replicate ((w * h * 4 + align - 1) / align * align / 4) 0).getD p 0 = 0
      rw [List.getD_eq_getElem?_getD, List.getElem?_replicate]
      split
      · rfl
      · rfl

theorem c7_witness :
    ((List.replicate 6 (0 : Nat)).length = 2 * 3
      ∧ (Image.from_data 2 3 (List.replicate 6 0)).data.length
        = (Image.from_data 2 3 (List.replicate 6 0)).width
          * (Image.from_data 2 3 (List.replicate 6 0)).height)
    ∧ (0 < 16 ∧ 2 * 3 ≤ (ImageAligned.new 2 3 16).data.length) :=
  ⟨⟨by simp, c7_dimension_invariant.2.2.1 2 3 (List.replicate 6 0) (by simp)⟩,
   ⟨by decide, (c7_dimension_invariant.2.2.2.2.2 2 3 16 (by decide)).1⟩⟩

/-- C8: `Image::from_path` surfaces a decoder failure as the absence of a
buffer (never a partial or corrupt one) together with a diagnostic log line
naming the failure, and on decoder success wraps exactly the decoder's
width/height/pixel triple. -/
theorem c8_from_path_decode (err : String) (w h : Nat) (d : List Color) :
    Image.from_path (Except.error err) = (none, ["orbital Image::from_path: " ++ err])
    ∧ Image.from_path (Except.ok (w, h, d)) = (some (Image.from_data w h d), [])
    ∧ (Image.from_data w h d).width = w
    ∧ (Image.from_data w h d).height = h
    ∧ (Image.from_data w h d).data = d :=
  ⟨rfl, rfl, rfl, rfl, rfl⟩

end Orbital
